import Mathlib

/-!
# Verification of the varstruct layout engine

A shallow embedding of `varstruct_internal.h`: the schema data model
(`FieldSlot`), the layout resolver (`CreateInternal`), the three pointer
variants (`PtrType`), and the generated per-field accessors
(`member_offset`, `array_size`, `void_ptr`, `scalar_get`/`scalar_set`,
`array_get`/`array_set`), together with theorems about layout computation,
error handling, bounds checking, round-trips and frame effects.

All `std::size_t` arithmetic performed by the source (the array-size
multiplication and the prefix-sum additions in `CreateInternal`, and the
`size_t` subtraction in the generated array `name_size()` method) is
modelled as arithmetic on `Nat` reduced modulo `2 ^ 64`.
-/

/-- The modulus of `std::size_t` arithmetic (64-bit machine word). -/
def W64 : Nat := 2 ^ 64

/-- One field declaration: the element size recorded by the
`VarstructMember` constructor (`sizeof(decl_type)`) and the array flag
pushed into `VarstructInternal::arrays_`. The declared index of a field is
its position in the schema list. -/
structure FieldSlot where
  element_size : Nat
  is_array : Bool
deriving DecidableEq

/-- The pointer type used to instantiate the `Varstruct` template:
`void*` (mutable), `const void*` (read-only) or `NoPtr` (offsets only).
Addresses are modelled as natural numbers. -/
inductive PtrType where
  | mut (addr : Nat)
  | const (addr : Nat)
  | noPtr
deriving DecidableEq

/-- `IsNoPtr` metafunction / `enable_if` condition of the common pointer
method: the base address is available exactly for the `void*` and
`const void*` instantiations. -/
def basePtr : PtrType → Option Nat
  | .mut a => some a
  | .const a => some a
  | .noPtr => none

/-- `enable_if` condition of the generated `set_` methods: the pointer
must be present and not `const`. -/
def isMutable : PtrType → Bool
  | .mut _ => true
  | .const _ => false
  | .noPtr => false

/-- Errors of the engine: `LengthMismatch` models the `assert`s of
`CreateInternal` on the `array_sizes` deque, `OutOfRange` the bounds
`assert` of the generated pointer method, and `CapabilityViolation` the
compile-time `enable_if` elision of methods that are unavailable for a
given pointer variant. -/
inductive VarstructError where
  | LengthMismatch
  | OutOfRange
  | CapabilityViolation
deriving DecidableEq

/-- A resolved varstruct: the `offsets_` vector (after `CreateInternal`
has turned sizes into exclusive end offsets) and the stored pointer. -/
structure Varstruct where
  offsets_ : List Nat
  ptr_ : PtrType
deriving DecidableEq

deriving instance DecidableEq for Except

/-- `vector::operator[]` with default 0, used to read `offsets_`. -/
def nthD : List Nat → Nat → Nat
  | [], _ => 0
  | x :: _, 0 => x
  | _ :: xs, n + 1 => nthD xs n

/-- Last element of a list with a default: `offsets_.empty() ? d : offsets_.back()`. -/
def lastD : List Nat → Nat → Nat
  | [], d => d
  | x :: xs, _ => lastD xs x

/-- First loop of `CreateInternal`: walk the fields in declaration order,
replacing each array field's recorded element size by
`element_size * array_sizes.front()` (a `size_t` multiplication, hence
modulo `2 ^ 64`) and popping the consumed length. Returns `none` when the
deque runs empty before an array field is reached (the
`assert(!array_sizes.empty())`), otherwise the raw sizes together with the
unconsumed remainder of the deque. -/
def consumeSizes : List FieldSlot → List Nat → Option (List Nat × List Nat)
  | [], ls => some ([], ls)
  | f :: fs, ls =>
    if f.is_array then
      match ls with
      | [] => none
      | l :: ls2 =>
        match consumeSizes fs ls2 with
        | none => none
        | some (sizes, rest) => some ((f.element_size * l) % W64 :: sizes, rest)
    else
      match consumeSizes fs ls with
      | none => none
      | some (sizes, rest) => some (f.element_size :: sizes, rest)

/-- Second loop of `CreateInternal`: carry-add the raw sizes into
exclusive end offsets with a running `size_t` total (modulo `2 ^ 64`). -/
def prefixOffsets (total : Nat) : List Nat → List Nat
  | [] => []
  | s :: rest => ((total + s) % W64) :: prefixOffsets ((total + s) % W64) rest

/-- `Varstruct::CreateInternal`: resolve a schema against the supplied
array lengths. Fails with `LengthMismatch` when the deque is exhausted
early or entries remain after the field loop
(`assert(array_sizes.empty())`). -/
def CreateInternal (fs : List FieldSlot) (ptr : PtrType) (array_sizes : List Nat) :
    Except VarstructError Varstruct :=
  match consumeSizes fs array_sizes with
  | none => .error .LengthMismatch
  | some (sizes, rest) =>
    match rest with
    | [] => .ok ⟨prefixOffsets 0 sizes, ptr⟩
    | _ :: _ => .error .LengthMismatch

/-- `Varstruct::size_bytes()`: `offsets_.empty() ? 0 : offsets_.back()`. -/
def Varstruct.size_bytes (v : Varstruct) : Nat :=
  lastD v.offsets_ 0

/-- `Varstruct::num_members()`: `offsets_.size()`. -/
def Varstruct.num_members (v : Varstruct) : Nat :=
  v.offsets_.length

/-- The generated `name##_offset()` method for the member of declared
index `index`: `(index == 0) ? 0 : offsets_[index - 1]`. -/
def Varstruct.member_offset (v : Varstruct) (index : Nat) : Nat :=
  if index = 0 then 0 else nthD v.offsets_ (index - 1)

/-- The generated `name##_size()` method of an array member:
`offsets_[index]` for the first member, otherwise the `size_t` difference
`offsets_[index] - offsets_[index - 1]` (modulo `2 ^ 64`). -/
def Varstruct.array_size (v : Varstruct) (index : Nat) : Nat :=
  if index = 0 then nthD v.offsets_ index
  else (nthD v.offsets_ index + W64 - nthD v.offsets_ (index - 1)) % W64

/-- The byte size reported for a field by its generated `name##_size`
accessor: the static `sizeof(decl_type)` for a scalar, the offset
difference for an array. -/
def Varstruct.field_size_bytes (v : Varstruct) (f : FieldSlot) (index : Nat) : Nat :=
  if f.is_array then v.array_size index else f.element_size

/-- A byte-addressed memory: the caller-supplied buffer region. -/
abbrev Memory : Type := Nat → Nat

/-- Read `len` bytes starting at `addr` (the source of a `memcpy`). -/
def readBytes (m : Memory) : Nat → Nat → List Nat
  | _, 0 => []
  | addr, len + 1 => m addr :: readBytes m (addr + 1) len

/-- Write the bytes `bs` starting at `addr` (the destination of a
`memcpy`); all other addresses are untouched. -/
def writeBytes (m : Memory) (addr : Nat) (bs : List Nat) : Memory :=
  fun p => if addr ≤ p ∧ p < addr + bs.length then nthD bs (p - addr) else m p

/-- The generated `__##name##__void__ptr__` method: requires a base
pointer (`enable_if` on `IsNoPtr`), optionally bounds-checks
`array_index` against `name_size() / sizeof(decl_type)` (the `assert`,
modelled as `OutOfRange`), and returns
`ptr_ + name_offset() + array_index * sizeof(decl_type)`.
`fsize` is the value of the field's generated `name##_size()`. -/
def Varstruct.void_ptr (v : Varstruct) (elt_size index fsize : Nat)
    (bounds_check : Bool) (array_index : Nat) : Except VarstructError Nat :=
  match basePtr v.ptr_ with
  | none => .error .CapabilityViolation
  | some base =>
    if bounds_check then
      if array_index < fsize / elt_size then
        .ok (base + v.member_offset index + array_index * elt_size)
      else .error .OutOfRange
    else .ok (base + v.member_offset index + array_index * elt_size)

/-- The `constexpr bool kBoundsCheck = false` baked into the generated
scalar accessors of `VARSTRUCT_SCALAR_INTERNAL`. -/
def kBoundsCheck : Bool := false

/-- The default value of the `bounds_check` template parameter of the
generated array accessors (`template <bool bounds_check = true, ...>`). -/
def array_bounds_check_default : Bool := true

/-- The generated scalar read accessor `name()`: `memcpy` of
`sizeof(decl_type)` bytes from `__name__void__ptr__<kBoundsCheck>()`. -/
def Varstruct.scalar_get (v : Varstruct) (m : Memory) (elt_size index : Nat) :
    Except VarstructError (List Nat) :=
  match v.void_ptr elt_size index elt_size kBoundsCheck 0 with
  | .error e => .error e
  | .ok addr => .ok (readBytes m addr elt_size)

/-- The generated scalar write accessor `set_name(new_value)`: requires a
mutable pointer, then `memcpy`s the value's bytes to
`__name__void__ptr__<kBoundsCheck>()`. -/
def Varstruct.scalar_set (v : Varstruct) (m : Memory) (elt_size index : Nat)
    (new_value : List Nat) : Except VarstructError Memory :=
  if isMutable v.ptr_ then
    match v.void_ptr elt_size index elt_size kBoundsCheck 0 with
    | .error e => .error e
    | .ok addr => .ok (writeBytes m addr new_value)
  else .error .CapabilityViolation

/-- The generated array read accessor `name<bounds_check>(array_index)`:
`memcpy` of one element from `__name__void__ptr__<bounds_check>(array_index)`. -/
def Varstruct.array_get (v : Varstruct) (m : Memory) (elt_size index : Nat)
    (bounds_check : Bool) (array_index : Nat) : Except VarstructError (List Nat) :=
  match v.void_ptr elt_size index (v.array_size index) bounds_check array_index with
  | .error e => .error e
  | .ok addr => .ok (readBytes m addr elt_size)

/-- The generated array write accessor
`set_name<bounds_check>(array_index, new_value)`: requires a mutable
pointer, then `memcpy`s one element to
`__name__void__ptr__<bounds_check>(array_index)`. -/
def Varstruct.array_set (v : Varstruct) (m : Memory) (elt_size index : Nat)
    (bounds_check : Bool) (array_index : Nat) (new_value : List Nat) :
    Except VarstructError Memory :=
  if isMutable v.ptr_ then
    match v.void_ptr elt_size index (v.array_size index) bounds_check array_index with
    | .error e => .error e
    | .ok addr => .ok (writeBytes m addr new_value)
  else .error .CapabilityViolation

/-- Number of array-flagged fields of a schema. -/
def arrayCount : List FieldSlot → Nat
  | [] => 0
  | f :: fs => if f.is_array then arrayCount fs + 1 else arrayCount fs

/-- Spec-side sum of the scalar fields' element sizes. -/
def scalarSum : List FieldSlot → Nat
  | [] => 0
  | f :: fs => if f.is_array then scalarSum fs else f.element_size + scalarSum fs

/-- Spec-side sum over array fields of `element_size * length`, pairing
the array fields with the supplied lengths in declaration order. -/
def arrayDot : List FieldSlot → List Nat → Nat
  | [], _ => 0
  | f :: fs, ls =>
    if f.is_array then f.element_size * ls.headD 0 + arrayDot fs ls.tail
    else arrayDot fs ls

/-- The resolved raw byte sizes of the fields (the state of `offsets_`
after the first loop of `CreateInternal`), as a total function. -/
def sizesOf : List FieldSlot → List Nat → List Nat
  | [], _ => []
  | f :: fs, ls =>
    if f.is_array then (f.element_size * ls.headD 0) % W64 :: sizesOf fs ls.tail
    else f.element_size :: sizesOf fs ls

/-- `nthD` analogue for schemas, with a zero-sized scalar default. -/
def slotD : List FieldSlot → Nat → FieldSlot
  | [], _ => ⟨0, false⟩
  | f :: _, 0 => f
  | _ :: fs, n + 1 => slotD fs n

/-- Sum of the first `n` entries of a list (spec-side prefix sum). -/
def sumTake : List Nat → Nat → Nat
  | _, 0 => 0
  | [], _ + 1 => 0
  | x :: xs, n + 1 => x + sumTake xs n

/-! ## Structure of the resolver -/

theorem consumeSizes_eq_of_le (fs : List FieldSlot) :
    ∀ ls : List Nat, arrayCount fs ≤ ls.length →
      consumeSizes fs ls = some (sizesOf fs ls, ls.drop (arrayCount fs)) := by
  induction fs with
  | nil => intro ls _; simp [consumeSizes, sizesOf, arrayCount]
  | cons f fs ih =>
    intro ls h
    rw [arrayCount] at h
    cases hf : f.is_array with
    | false =>
      rw [hf] at h; simp only [Bool.false_eq_true, if_false] at h
      simp [consumeSizes, sizesOf, arrayCount, hf, ih ls h]
    | true =>
      rw [hf] at h; simp only [if_true] at h
      cases ls with
      | nil => simp at h
      | cons l ls2 =>
        have h2 : arrayCount fs ≤ ls2.length := by
          rw [List.length_cons] at h; omega
        simp [consumeSizes, sizesOf, arrayCount, hf, ih ls2 h2]

theorem consumeSizes_eq_none (fs : List FieldSlot) :
    ∀ ls : List Nat, ls.length < arrayCount fs → consumeSizes fs ls = none := by
  induction fs with
  | nil => intro ls h; simp [arrayCount] at h
  | cons f fs ih =>
    intro ls h
    rw [arrayCount] at h
    cases hf : f.is_array with
    | false =>
      rw [hf] at h; simp only [Bool.false_eq_true, if_false] at h
      simp [consumeSizes, hf, ih ls h]
    | true =>
      rw [hf] at h; simp only [if_true] at h
      cases ls with
      | nil => simp [consumeSizes, hf]
      | cons l ls2 =>
        have h2 : ls2.length < arrayCount fs := by
          rw [List.length_cons] at h; omega
        simp [consumeSizes, hf, ih ls2 h2]

theorem createInternal_eq_ok (fs : List FieldSlot) (p : PtrType) (ls : List Nat)
    (h : ls.length = arrayCount fs) :
    CreateInternal fs p ls = Except.ok ⟨prefixOffsets 0 (sizesOf fs ls), p⟩ := by
  have h1 := consumeSizes_eq_of_le fs ls (Nat.le_of_eq h.symm)
  have h2 : ls.drop (arrayCount fs) = [] := by
    rw [← h]; exact List.drop_length ls
  rw [CreateInternal, h1, h2]

theorem createInternal_error_of_lt (fs : List FieldSlot) (p : PtrType) (ls : List Nat)
    (h : ls.length < arrayCount fs) :
    CreateInternal fs p ls = Except.error VarstructError.LengthMismatch := by
  rw [CreateInternal, consumeSizes_eq_none fs ls h]

theorem createInternal_error_of_gt (fs : List FieldSlot) (p : PtrType) (ls : List Nat)
    (h : arrayCount fs < ls.length) :
    CreateInternal fs p ls = Except.error VarstructError.LengthMismatch := by
  have h1 := consumeSizes_eq_of_le fs ls (Nat.le_of_lt h)
  rcases hd : ls.drop (arrayCount fs) with _ | ⟨x, xs⟩
  · have hlen := List.length_drop (arrayCount fs) ls
    rw [hd] at hlen
    simp at hlen
    omega
  · rw [CreateInternal, h1, hd]

theorem createInternal_ok_inv {fs : List FieldSlot} {p : PtrType} {ls : List Nat}
    {v : Varstruct} (hv : CreateInternal fs p ls = Except.ok v) :
    ls.length = arrayCount fs ∧ v = ⟨prefixOffsets 0 (sizesOf fs ls), p⟩ := by
  rcases Nat.lt_trichotomy ls.length (arrayCount fs) with h | h | h
  · rw [createInternal_error_of_lt fs p ls h] at hv; exact Except.noConfusion hv
  · refine ⟨h, ?_⟩
    rw [createInternal_eq_ok fs p ls h] at hv
    exact (Except.ok.inj hv).symm
  · rw [createInternal_error_of_gt fs p ls h] at hv; exact Except.noConfusion hv

theorem sizesOf_length (fs : List FieldSlot) :
    ∀ ls : List Nat, (sizesOf fs ls).length = fs.length := by
  induction fs with
  | nil => intro ls; rfl
  | cons f fs ih =>
    intro ls
    cases hf : f.is_array <;> simp [sizesOf, hf, ih]

theorem sizesOf_sum_mod (fs : List FieldSlot) :
    ∀ ls : List Nat,
      (sizesOf fs ls).sum % W64 = (scalarSum fs + arrayDot fs ls) % W64 := by
  induction fs with
  | nil => intro ls; simp [sizesOf, scalarSum, arrayDot]
  | cons f fs ih =>
    intro ls
    cases hf : f.is_array with
    | false =>
      simp only [sizesOf, scalarSum, arrayDot, hf, Bool.false_eq_true, if_false,
        List.sum_cons]
      rw [Nat.add_mod, ih ls, ← Nat.add_mod]
      congr 1
      omega
    | true =>
      simp only [sizesOf, scalarSum, arrayDot, hf, if_true, List.sum_cons]
      rw [Nat.mod_add_mod, Nat.add_mod, ih ls.tail, ← Nat.add_mod]
      congr 1
      omega

/-! ## Prefix offsets -/

theorem prefixOffsets_length (sizes : List Nat) :
    ∀ t : Nat, (prefixOffsets t sizes).length = sizes.length := by
  induction sizes with
  | nil => intro t; rfl
  | cons s rest ih => intro t; simp [prefixOffsets, ih]

theorem prefixOffsets_lastD (sizes : List Nat) :
    ∀ t : Nat, t < W64 → lastD (prefixOffsets t sizes) t = (t + sizes.sum) % W64 := by
  induction sizes with
  | nil =>
    intro t ht
    simp [prefixOffsets, lastD, Nat.mod_eq_of_lt ht]
  | cons s rest ih =>
    intro t ht
    have hlt : (t + s) % W64 < W64 := Nat.mod_lt _ (by decide)
    have step : lastD (prefixOffsets t (s :: rest)) t
        = lastD (prefixOffsets ((t + s) % W64) rest) ((t + s) % W64) := rfl
    rw [step, ih _ hlt, Nat.mod_add_mod, List.sum_cons]
    congr 1
    omega

theorem sumTake_le_sum (l : List Nat) : ∀ n : Nat, sumTake l n ≤ l.sum := by
  induction l with
  | nil => intro n; cases n <;> simp [sumTake]
  | cons x xs ih =>
    intro n
    cases n with
    | zero => simp [sumTake]
    | succ m =>
      have := ih m
      simp only [sumTake, List.sum_cons]
      omega

theorem sumTake_succ_eq (l : List Nat) :
    ∀ i : Nat, i < l.length → sumTake l (i + 1) = sumTake l i + nthD l i := by
  induction l with
  | nil => intro i h; simp at h
  | cons x xs ih =>
    intro i h
    cases i with
    | zero => simp [sumTake, nthD]
    | succ j =>
      rw [List.length_cons] at h
      have := ih j (by omega)
      simp only [sumTake, nthD]
      omega

theorem nthD_le_sum (l : List Nat) : ∀ i : Nat, nthD l i ≤ l.sum := by
  induction l with
  | nil => intro i; simp [nthD]
  | cons x xs ih =>
    intro i
    cases i with
    | zero => simp [nthD]
    | succ j =>
      have := ih j
      simp only [nthD, List.sum_cons]
      omega

theorem prefixOffsets_nthD (sizes : List Nat) :
    ∀ t i : Nat, t + sizes.sum < W64 → i < sizes.length →
      nthD (prefixOffsets t sizes) i = t + sumTake sizes (i + 1) := by
  induction sizes with
  | nil => intro t i _ hi; simp at hi
  | cons s rest ih =>
    intro t i h hi
    rw [List.sum_cons] at h
    have hts : (t + s) % W64 = t + s := Nat.mod_eq_of_lt (by omega)
    cases i with
    | zero =>
      simp [prefixOffsets, nthD, hts, sumTake]
    | succ j =>
      rw [List.length_cons] at hi
      have hrec := ih (t + s) j (by omega) (by omega)
      have lhs_eq : nthD (prefixOffsets t (s :: rest)) (j + 1)
          = nthD (prefixOffsets ((t + s) % W64) rest) j := rfl
      rw [lhs_eq, hts, hrec]
      simp only [sumTake]
      omega

/-! ## Offsets of a resolved varstruct when the total fits the word -/

theorem member_offset_fit (sizes : List Nat) (p : PtrType) (i : Nat)
    (hfit : sizes.sum < W64) (hi : i ≤ sizes.length) :
    (Varstruct.mk (prefixOffsets 0 sizes) p).member_offset i = sumTake sizes i := by
  cases i with
  | zero => simp [Varstruct.member_offset, sumTake]
  | succ j =>
    have h := prefixOffsets_nthD sizes 0 j (by omega) (by omega)
    simp only [Varstruct.member_offset, Nat.succ_ne_zero, if_false, Nat.add_sub_cancel]
    rw [h]
    omega

theorem array_size_fit (sizes : List Nat) (p : PtrType) (i : Nat)
    (hfit : sizes.sum < W64) (hi : i < sizes.length) :
    (Varstruct.mk (prefixOffsets 0 sizes) p).array_size i = nthD sizes i := by
  cases i with
  | zero =>
    have h0 := prefixOffsets_nthD sizes 0 0 (by omega) hi
    have h1 := sumTake_succ_eq sizes 0 hi
    simp only [Varstruct.array_size, if_pos rfl]
    rw [h0, h1]
    simp [sumTake]
  | succ j =>
    have ha := prefixOffsets_nthD sizes 0 (j + 1) (by omega) hi
    have hb := prefixOffsets_nthD sizes 0 j (by omega) (by omega)
    have hc := sumTake_succ_eq sizes (j + 1) hi
    have hd := nthD_le_sum sizes (j + 1)
    have he := sumTake_le_sum sizes (j + 1)
    simp only [Varstruct.array_size, Nat.succ_ne_zero, if_false, Nat.add_sub_cancel]
    rw [ha, hb]
    have harith : 0 + sumTake sizes (j + 1 + 1) + W64 - (0 + sumTake sizes (j + 1))
        = nthD sizes (j + 1) + W64 := by omega
    rw [harith, Nat.add_mod_right, Nat.mod_eq_of_lt (by omega)]

theorem sizesOf_nthD_scalar (fs : List FieldSlot) :
    ∀ (ls : List Nat) (i : Nat), i < fs.length → (slotD fs i).is_array = false →
      nthD (sizesOf fs ls) i = (slotD fs i).element_size := by
  induction fs with
  | nil => intro ls i hi _; simp at hi
  | cons f fs ih =>
    intro ls i hi hsc
    cases i with
    | zero =>
      have hf : f.is_array = false := hsc
      simp [sizesOf, hf, nthD, slotD]
    | succ j =>
      rw [List.length_cons] at hi
      have hsc2 : (slotD fs j).is_array = false := hsc
      cases hf : f.is_array with
      | false => simpa [sizesOf, hf, nthD, slotD] using ih ls j (by omega) hsc2
      | true => simpa [sizesOf, hf, nthD, slotD] using ih ls.tail j (by omega) hsc2

theorem sizesOf_nthD_lt (fs : List FieldSlot) :
    ∀ (ls : List Nat) (i : Nat), i < fs.length → (slotD fs i).is_array = true →
      nthD (sizesOf fs ls) i < W64 := by
  induction fs with
  | nil => intro ls i hi _; simp at hi
  | cons f fs ih =>
    intro ls i hi harr
    cases i with
    | zero =>
      have hf : f.is_array = true := harr
      simp only [sizesOf, hf, if_true, nthD]
      exact Nat.mod_lt _ (by decide)
    | succ j =>
      rw [List.length_cons] at hi
      have harr2 : (slotD fs j).is_array = true := harr
      cases hf : f.is_array with
      | false => simpa [sizesOf, hf, nthD] using ih ls j (by omega) harr2
      | true => simpa [sizesOf, hf, nthD] using ih ls.tail j (by omega) harr2

/-! ## Memory lemmas -/

theorem readBytes_congr (m1 m2 : Memory) :
    ∀ (len addr : Nat), (∀ p, addr ≤ p → p < addr + len → m1 p = m2 p) →
      readBytes m1 addr len = readBytes m2 addr len := by
  intro len
  induction len with
  | zero => intro addr _; rfl
  | succ k ih =>
    intro addr h
    simp only [readBytes, List.cons.injEq]
    refine ⟨?_, ?_⟩
    · exact h addr (Nat.le_refl addr) (by omega)
    · exact ih (addr + 1) (fun p hp1 hp2 => h p (by omega) (by omega))

theorem writeBytes_outside (m : Memory) (addr : Nat) (bs : List Nat) (p : Nat)
    (hp : p < addr ∨ addr + bs.length ≤ p) :
    writeBytes m addr bs p = m p := by
  unfold writeBytes
  rw [if_neg]
  omega

theorem readBytes_writeBytes (bs : List Nat) :
    ∀ (m : Memory) (addr : Nat),
      readBytes (writeBytes m addr bs) addr bs.length = bs := by
  induction bs with
  | nil => intro m addr; rfl
  | cons b rest ih =>
    intro m addr
    simp only [List.length_cons, readBytes, List.cons.injEq]
    refine ⟨?_, ?_⟩
    · show writeBytes m addr (b :: rest) addr = b
      unfold writeBytes
      rw [if_pos (by simp)]
      simp [nthD]
    · have hcongr : readBytes (writeBytes m addr (b :: rest)) (addr + 1) rest.length
          = readBytes (writeBytes m (addr + 1) rest) (addr + 1) rest.length := by
        apply readBytes_congr
        intro p hp1 hp2
        unfold writeBytes
        rw [if_pos (by simp; omega), if_pos (by omega)]
        have hsub : p - addr = (p - (addr + 1)) + 1 := by omega
        rw [hsub]
        rfl
      rw [hcongr, ih]

/-! ## Claim theorems -/

/-- Claim C1 (counterexample): the claimed exact-sum formula for
`size_bytes` fails once the `size_t` arithmetic of `CreateInternal`
wraps. For the schema with one array field of element size `2 ^ 63` and
length sequence `[2]`, Resolve succeeds but `size_bytes` is `0`, not the
exact sum `2 ^ 63 * 2 = 2 ^ 64`. -/
theorem C1_counterexample :
    CreateInternal [⟨2 ^ 63, true⟩] PtrType.noPtr [2]
      = Except.ok ⟨[0], PtrType.noPtr⟩ ∧
    (Varstruct.mk [0] PtrType.noPtr).size_bytes = 0 ∧
    scalarSum [⟨2 ^ 63, true⟩] + arrayDot [⟨2 ^ 63, true⟩] [2] = 2 ^ 64 ∧
    (Varstruct.mk [0] PtrType.noPtr).size_bytes
      ≠ scalarSum [⟨2 ^ 63, true⟩] + arrayDot [⟨2 ^ 63, true⟩] [2] := by
  refine ⟨by decide, rfl, by decide, by decide⟩

/-- Claim C1 (amended): for every schema with `k` scalar and `m` array
fields and every length sequence of size exactly `m`, `CreateInternal`
succeeds and `size_bytes` equals the sum of the scalar element sizes plus
the sum over array fields of `element_size * length`, reduced modulo
`2 ^ 64` (the `size_t` word); for a schema with no fields it returns 0. -/
theorem C1_total_size (fs : List FieldSlot) (p : PtrType) (ls : List Nat)
    (hlen : ls.length = arrayCount fs) :
    ∃ v : Varstruct, CreateInternal fs p ls = Except.ok v ∧
      v.size_bytes = (scalarSum fs + arrayDot fs ls) % W64 ∧
      (fs = [] → v.size_bytes = 0) := by
  refine ⟨⟨prefixOffsets 0 (sizesOf fs ls), p⟩, createInternal_eq_ok fs p ls hlen, ?_, ?_⟩
  · show lastD (prefixOffsets 0 (sizesOf fs ls)) 0 = _
    rw [prefixOffsets_lastD _ 0 (by decide)]
    simpa using sizesOf_sum_mod fs ls
  · intro hfs
    subst hfs
    rfl

/-- Witness for C1 at the spec's concrete scenario: schema
`[scalar 4, array 2, scalar 8]` with lengths `[3]`. -/
theorem C1_total_size_witness :
    ([(3 : Nat)].length
        = arrayCount [⟨4, false⟩, ⟨2, true⟩, ⟨8, false⟩]) ∧
    (∃ v : Varstruct,
      CreateInternal [⟨4, false⟩, ⟨2, true⟩, ⟨8, false⟩] PtrType.noPtr [3]
        = Except.ok v ∧
      v.size_bytes
        = (scalarSum [⟨4, false⟩, ⟨2, true⟩, ⟨8, false⟩]
            + arrayDot [⟨4, false⟩, ⟨2, true⟩, ⟨8, false⟩] [3]) % W64 ∧
      ([⟨4, false⟩, ⟨2, true⟩, ⟨8, false⟩] = ([] : List FieldSlot)
        → v.size_bytes = 0)) :=
  ⟨by decide, C1_total_size [⟨4, false⟩, ⟨2, true⟩, ⟨8, false⟩] PtrType.noPtr [3]
    (by decide)⟩

/-- Claim C3: `CreateInternal` fails with `LengthMismatch` exactly when
the number of supplied lengths differs from the schema's number of
array-flagged fields, and succeeds exactly when they agree — so failure
is independent of the length values themselves. -/
theorem C3_length_mismatch (fs : List FieldSlot) (p : PtrType) (ls : List Nat) :
    (CreateInternal fs p ls = Except.error VarstructError.LengthMismatch
      ↔ ls.length ≠ arrayCount fs) ∧
    ((∃ v : Varstruct, CreateInternal fs p ls = Except.ok v)
      ↔ ls.length = arrayCount fs) := by
  constructor
  · constructor
    · intro h heq
      rw [createInternal_eq_ok fs p ls heq] at h
      exact Except.noConfusion h
    · intro hne
      rcases Nat.lt_trichotomy ls.length (arrayCount fs) with h | h | h
      · exact createInternal_error_of_lt fs p ls h
      · exact absurd h hne
      · exact createInternal_error_of_gt fs p ls h
  · constructor
    · rintro ⟨v, hv⟩
      exact (createInternal_ok_inv hv).1
    · intro h
      exact ⟨_, createInternal_eq_ok fs p ls h⟩

/-- Claim C10: `CreateInternal` performs no overflow detection — the
array byte sizes and prefix-sum offsets are computed modulo `2 ^ 64`.
For the schema with one array field of element size `2 ^ 63` and length
`3`, whose exact total `2 ^ 63 * 3` exceeds `2 ^ 64 - 1`, Resolve
succeeds and returns the wrapped offset and total size `2 ^ 63`. -/
theorem C10_overflow_wrap :
    CreateInternal [⟨2 ^ 63, true⟩] PtrType.noPtr [3]
      = Except.ok ⟨[2 ^ 63], PtrType.noPtr⟩ ∧
    (Varstruct.mk [2 ^ 63] PtrType.noPtr).size_bytes = 2 ^ 63 ∧
    2 ^ 63 * 3 = 2 ^ 64 + 2 ^ 63 ∧
    2 ^ 64 - 1 < 2 ^ 63 * 3 := by
  refine ⟨by decide, rfl, by decide, by decide⟩

/-- Claim C7 (counterexample): the offsets sequence is not strictly
increasing for every valid length sequence — an array field of length 0
contributes a resolved size of 0, making adjacent offsets equal. Schema
`[scalar 4, array 2]` with lengths `[0]` resolves to offsets `[4, 4]`. -/
theorem C7_counterexample :
    CreateInternal [⟨4, false⟩, ⟨2, true⟩] PtrType.noPtr [0]
      = Except.ok ⟨[4, 4], PtrType.noPtr⟩ ∧
    ¬ nthD [4, 4] 0 < nthD [4, 4] 1 := by
  refine ⟨by decide, by decide⟩

/-- Claim C7 (amended): provided the resolved sizes sum to less than
`2 ^ 64` (no `size_t` wrap), the offsets of a resolved varstruct are
non-decreasing, `offsets[i] - offsets[i-1]` equals field `i`'s resolved
size exactly, and the step is strict precisely when that resolved size is
positive (a zero-length array gives equal adjacent offsets). -/
theorem C7_offsets_monotone (fs : List FieldSlot) (p : PtrType) (ls : List Nat)
    (v : Varstruct) (i : Nat)
    (hv : CreateInternal fs p ls = Except.ok v)
    (hfit : (sizesOf fs ls).sum < W64)
    (hi : i < fs.length) (hpos : 0 < i) :
    nthD v.offsets_ (i - 1) ≤ nthD v.offsets_ i ∧
    nthD v.offsets_ i - nthD v.offsets_ (i - 1) = nthD (sizesOf fs ls) i ∧
    (0 < nthD (sizesOf fs ls) i →
      nthD v.offsets_ (i - 1) < nthD v.offsets_ i) := by
  obtain ⟨hlen, hveq⟩ := createInternal_ok_inv hv
  subst hveq
  have hlenS : (sizesOf fs ls).length = fs.length := sizesOf_length fs ls
  have hip : i - 1 + 1 = i := by omega
  have ha : nthD (prefixOffsets 0 (sizesOf fs ls)) i
      = 0 + sumTake (sizesOf fs ls) (i + 1) :=
    prefixOffsets_nthD (sizesOf fs ls) 0 i (by omega) (by omega)
  have hb : nthD (prefixOffsets 0 (sizesOf fs ls)) (i - 1)
      = 0 + sumTake (sizesOf fs ls) (i - 1 + 1) :=
    prefixOffsets_nthD (sizesOf fs ls) 0 (i - 1) (by omega) (by omega)
  have hc : sumTake (sizesOf fs ls) (i + 1)
      = sumTake (sizesOf fs ls) i + nthD (sizesOf fs ls) i :=
    sumTake_succ_eq (sizesOf fs ls) i (by omega)
  rw [hip] at hb
  show nthD (prefixOffsets 0 (sizesOf fs ls)) (i - 1)
      ≤ nthD (prefixOffsets 0 (sizesOf fs ls)) i ∧ _
  rw [ha, hb, hc]
  omega

/-- Witness for C7 at the spec's concrete scenario (field 1, the array). -/
theorem C7_offsets_monotone_witness :
    nthD (Varstruct.mk [4, 10, 18] PtrType.noPtr).offsets_ 0
      ≤ nthD (Varstruct.mk [4, 10, 18] PtrType.noPtr).offsets_ 1 ∧
    nthD (Varstruct.mk [4, 10, 18] PtrType.noPtr).offsets_ 1
        - nthD (Varstruct.mk [4, 10, 18] PtrType.noPtr).offsets_ 0
      = nthD (sizesOf [⟨4, false⟩, ⟨2, true⟩, ⟨8, false⟩] [3]) 1 ∧
    (0 < nthD (sizesOf [⟨4, false⟩, ⟨2, true⟩, ⟨8, false⟩] [3]) 1 →
      nthD (Varstruct.mk [4, 10, 18] PtrType.noPtr).offsets_ 0
        < nthD (Varstruct.mk [4, 10, 18] PtrType.noPtr).offsets_ 1) := by
  have h := C7_offsets_monotone [⟨4, false⟩, ⟨2, true⟩, ⟨8, false⟩] PtrType.noPtr [3]
    (Varstruct.mk [4, 10, 18] PtrType.noPtr) 1 (by decide) (by decide) (by decide)
    (by decide)
  simpa using h

/-- Claim C2 (counterexample): `start(i) = start(i-1) + size(i-1)` fails
in plain (unbounded) arithmetic once the prefix-sum `size_t` additions of
`CreateInternal` wrap. Schema `[array 2, array 2, scalar 4]` with lengths
`[2^62, 2^62]` resolves to offsets `[2^63, 0, 4]`; field 2 starts at 0
while field 1 starts at `2^63` and reports size `2^63`. -/
theorem C2_counterexample :
    CreateInternal [⟨2, true⟩, ⟨2, true⟩, ⟨4, false⟩] PtrType.noPtr
        [2 ^ 62, 2 ^ 62]
      = Except.ok ⟨[2 ^ 63, 0, 4], PtrType.noPtr⟩ ∧
    (Varstruct.mk [2 ^ 63, 0, 4] PtrType.noPtr).member_offset 2
      ≠ (Varstruct.mk [2 ^ 63, 0, 4] PtrType.noPtr).member_offset 1
        + (Varstruct.mk [2 ^ 63, 0, 4] PtrType.noPtr).field_size_bytes
            (slotD [⟨2, true⟩, ⟨2, true⟩, ⟨4, false⟩] 1) 1 := by
  refine ⟨by decide, by decide⟩

/-- Claim C2 (amended): for every resolved varstruct, the start offset of
field 0 is 0; and provided the resolved sizes sum to less than `2 ^ 64`
(no `size_t` wrap), `start(i) = start(i-1) + size(i-1)` for every `i > 0`
— fields occupy contiguous, non-overlapping, gap-free byte ranges in
declaration order. -/
theorem C2_start_offsets (fs : List FieldSlot) (p : PtrType) (ls : List Nat)
    (v : Varstruct) (i : Nat)
    (hv : CreateInternal fs p ls = Except.ok v)
    (hfit : (sizesOf fs ls).sum < W64)
    (hi : i < fs.length) (hpos : 0 < i) :
    v.member_offset 0 = 0 ∧
    v.member_offset i
      = v.member_offset (i - 1)
        + v.field_size_bytes (slotD fs (i - 1)) (i - 1) := by
  obtain ⟨hlen, hveq⟩ := createInternal_ok_inv hv
  subst hveq
  have hlenS : (sizesOf fs ls).length = fs.length := sizesOf_length fs ls
  have hip : i - 1 + 1 = i := by omega
  refine ⟨by simp [Varstruct.member_offset], ?_⟩
  have hoff_i := member_offset_fit (sizesOf fs ls) p i hfit (by omega)
  have hoff_im1 := member_offset_fit (sizesOf fs ls) p (i - 1) hfit (by omega)
  have hstep : sumTake (sizesOf fs ls) i
      = sumTake (sizesOf fs ls) (i - 1) + nthD (sizesOf fs ls) (i - 1) := by
    have := sumTake_succ_eq (sizesOf fs ls) (i - 1) (by omega)
    rw [hip] at this
    exact this
  have hsize : (Varstruct.mk (prefixOffsets 0 (sizesOf fs ls)) p).field_size_bytes
      (slotD fs (i - 1)) (i - 1) = nthD (sizesOf fs ls) (i - 1) := by
    unfold Varstruct.field_size_bytes
    cases hf : (slotD fs (i - 1)).is_array with
    | false =>
      simp only [Bool.false_eq_true, if_false]
      exact (sizesOf_nthD_scalar fs ls (i - 1) (by omega) hf).symm
    | true =>
      simp only [if_true]
      exact array_size_fit (sizesOf fs ls) p (i - 1) hfit (by omega)
  rw [hoff_i, hoff_im1, hsize, hstep]

/-- Witness for C2 at the spec's concrete scenario (field 2 follows the
array field 1). -/
theorem C2_start_offsets_witness :
    (Varstruct.mk [4, 10, 18] PtrType.noPtr).member_offset 0 = 0 ∧
    (Varstruct.mk [4, 10, 18] PtrType.noPtr).member_offset 2
      = (Varstruct.mk [4, 10, 18] PtrType.noPtr).member_offset 1
        + (Varstruct.mk [4, 10, 18] PtrType.noPtr).field_size_bytes
            (slotD [⟨4, false⟩, ⟨2, true⟩, ⟨8, false⟩] 1) 1 :=
  C2_start_offsets [⟨4, false⟩, ⟨2, true⟩, ⟨8, false⟩] PtrType.noPtr [3]
    (Varstruct.mk [4, 10, 18] PtrType.noPtr) 2 (by decide) (by decide) (by decide)
    (by decide)

/-- Claim C4: with bounds checking enabled, array `get`/`set` on a bound
mutable view fail with `OutOfRange` iff `index < 0 ∨ index ≥ n` where
`n = size(f) / element_size(f)` (the index is a `size_t`, so `index < 0`
is vacuous); on failure no memory is accessed (the result is independent
of the buffer contents); with bounds checking disabled no range check is
performed and the access proceeds unconditionally. -/
theorem C4_bounds_check (v : Varstruct) (base : Nat) (m m2 : Memory)
    (elt_size index i : Nat) (bs : List Nat)
    (hv : v.ptr_ = PtrType.mut base) :
    (v.array_get m elt_size index true i = Except.error VarstructError.OutOfRange
      ↔ (i < 0 ∨ v.array_size index / elt_size ≤ i)) ∧
    (v.array_set m elt_size index true i bs
        = Except.error VarstructError.OutOfRange
      ↔ (i < 0 ∨ v.array_size index / elt_size ≤ i)) ∧
    (v.array_size index / elt_size ≤ i →
      v.array_get m elt_size index true i = v.array_get m2 elt_size index true i) ∧
    v.array_get m elt_size index false i
      = Except.ok (readBytes m (base + v.member_offset index + i * elt_size)
          elt_size) ∧
    v.array_set m elt_size index false i bs
      = Except.ok (writeBytes m (base + v.member_offset index + i * elt_size) bs) := by
  have hbp : basePtr v.ptr_ = some base := by rw [hv]; rfl
  have hmut : isMutable v.ptr_ = true := by rw [hv]; rfl
  rcases Nat.lt_or_ge i (v.array_size index / elt_size) with hb | hb
  · have hvp : v.void_ptr elt_size index (v.array_size index) true i
        = Except.ok (base + v.member_offset index + i * elt_size) := by
      unfold Varstruct.void_ptr
      rw [hbp]
      simp [hb]
    refine ⟨?_, ?_, ?_, ?_, ?_⟩
    · simp only [Varstruct.array_get, hvp]
      simp
      omega
    · simp only [Varstruct.array_set, hmut, if_true, hvp]
      simp
      omega
    · intro h
      omega
    · simp only [Varstruct.array_get, Varstruct.void_ptr, hbp]
      simp
    · simp only [Varstruct.array_set, hmut, if_true, Varstruct.void_ptr, hbp]
      simp
  · have hvp : v.void_ptr elt_size index (v.array_size index) true i
        = Except.error VarstructError.OutOfRange := by
      unfold Varstruct.void_ptr
      rw [hbp]
      simp
      omega
    refine ⟨?_, ?_, ?_, ?_, ?_⟩
    · simp only [Varstruct.array_get, hvp]
      simp
      omega
    · simp only [Varstruct.array_set, hmut, if_true, hvp]
      simp
      omega
    · intro _
      simp only [Varstruct.array_get, hvp]
    · simp only [Varstruct.array_get, Varstruct.void_ptr, hbp]
      simp
    · simp only [Varstruct.array_set, hmut, if_true, Varstruct.void_ptr, hbp]
      simp

/-- Witness for C4: array field 1 of a bound view with 2 elements rejects
index 5 when the check is enabled. -/
theorem C4_bounds_check_witness :
    (Varstruct.mk [4, 8] (PtrType.mut 100)).array_get (fun _ => 0) 2 1 true 5
      = Except.error VarstructError.OutOfRange :=
  ((C4_bounds_check (Varstruct.mk [4, 8] (PtrType.mut 100)) 100 (fun _ => 0)
      (fun _ => 1) 2 1 5 [7, 7] rfl).1).mpr (by decide)

/-- Claim C5: on a mutable bound view, writing a value and immediately
reading the same location returns the value exactly — for a whole scalar
field and for an in-range array index alike. -/
theorem C5_roundtrip (v : Varstruct) (base : Nat) (m : Memory)
    (elt_size index i : Nat) (bs : List Nat)
    (hv : v.ptr_ = PtrType.mut base) (hbs : bs.length = elt_size)
    (hi : i < v.array_size index / elt_size) :
    (∃ m2 : Memory, v.scalar_set m elt_size index bs = Except.ok m2 ∧
      v.scalar_get m2 elt_size index = Except.ok bs) ∧
    (∃ m2 : Memory, v.array_set m elt_size index true i bs = Except.ok m2 ∧
      v.array_get m2 elt_size index true i = Except.ok bs) := by
  have hbp : basePtr v.ptr_ = some base := by rw [hv]; rfl
  have hmut : isMutable v.ptr_ = true := by rw [hv]; rfl
  subst hbs
  constructor
  · refine ⟨writeBytes m (base + v.member_offset index + 0 * bs.length) bs, ?_, ?_⟩
    · simp only [Varstruct.scalar_set, hmut, if_true, Varstruct.void_ptr, hbp,
        kBoundsCheck]
      simp
    · simp only [Varstruct.scalar_get, Varstruct.void_ptr, hbp, kBoundsCheck]
      simp only [Bool.false_eq_true, if_false]
      rw [readBytes_writeBytes]
  · refine ⟨writeBytes m (base + v.member_offset index + i * bs.length) bs, ?_, ?_⟩
    · simp only [Varstruct.array_set, hmut, if_true, Varstruct.void_ptr, hbp,
        if_true, hi]
    · simp only [Varstruct.array_get, Varstruct.void_ptr, hbp]
      simp only [hi, if_true]
      rw [readBytes_writeBytes]

/-- Witness for C5: writing `[9, 9]` to element 1 of array field 1 of a
bound mutable view and reading it back returns `[9, 9]`. -/
theorem C5_roundtrip_witness :
    ∃ m2 : Memory,
      (Varstruct.mk [4, 8] (PtrType.mut 100)).array_set (fun _ => 0) 2 1 true 1
          [9, 9] = Except.ok m2 ∧
      (Varstruct.mk [4, 8] (PtrType.mut 100)).array_get m2 2 1 true 1
        = Except.ok [9, 9] :=
  (C5_roundtrip (Varstruct.mk [4, 8] (PtrType.mut 100)) 100 (fun _ => 0) 2 1 1
    [9, 9] rfl (by decide) (by decide)).2

/-- Claim C8 (counterexample): the bounds-checking policy is not an
identically available caller-chosen flag on the scalar and array access
paths. The scalar accessors hard-code `kBoundsCheck = false` while the
array accessors default their caller-choosable flag to `true`; at the
same concrete call the pointer computation under the array default
rejects index 3 while under the scalar path's fixed policy it proceeds. -/
theorem C8_counterexample :
    kBoundsCheck ≠ array_bounds_check_default ∧
    (Varstruct.mk [4, 8] (PtrType.mut 100)).void_ptr 2 1
        ((Varstruct.mk [4, 8] (PtrType.mut 100)).array_size 1)
        array_bounds_check_default 3
      = Except.error VarstructError.OutOfRange ∧
    (Varstruct.mk [4, 8] (PtrType.mut 100)).void_ptr 2 1
        ((Varstruct.mk [4, 8] (PtrType.mut 100)).array_size 1) kBoundsCheck 3
      = Except.ok 110 := by
  refine ⟨by decide, by decide, by decide⟩

/-- Claim C8 (amended): only the array accessors take a caller-chosen
`bounds_check` flag (with implicit default `true`); the scalar accessors
hard-code bounds checking off, so on a bound mutable view scalar
`get`/`set` can never fail with `OutOfRange`, the array accessor under its
default checks exactly the `index ≥ n` condition, and a caller passing
`false` on the array path disables the check. -/
theorem C8_policy (v : Varstruct) (base : Nat) (m : Memory)
    (elt_size index i : Nat) (bs : List Nat)
    (hv : v.ptr_ = PtrType.mut base) :
    v.scalar_get m elt_size index ≠ Except.error VarstructError.OutOfRange ∧
    v.scalar_set m elt_size index bs ≠ Except.error VarstructError.OutOfRange ∧
    (v.array_get m elt_size index array_bounds_check_default i
        = Except.error VarstructError.OutOfRange
      ↔ v.array_size index / elt_size ≤ i) ∧
    v.array_get m elt_size index false i ≠ Except.error VarstructError.OutOfRange := by
  have hbp : basePtr v.ptr_ = some base := by rw [hv]; rfl
  have hmut : isMutable v.ptr_ = true := by rw [hv]; rfl
  refine ⟨?_, ?_, ?_, ?_⟩
  · simp [Varstruct.scalar_get, Varstruct.void_ptr, hbp, kBoundsCheck]
  · simp [Varstruct.scalar_set, hmut, Varstruct.void_ptr, hbp, kBoundsCheck]
  · rcases Nat.lt_or_ge i (v.array_size index / elt_size) with hb | hb
    · simp [Varstruct.array_get, Varstruct.void_ptr, hbp,
        array_bounds_check_default, hb]
    · simp [Varstruct.array_get, Varstruct.void_ptr, hbp,
        array_bounds_check_default, Nat.not_lt_of_ge hb]
      omega
  · simp [Varstruct.array_get, Varstruct.void_ptr, hbp]

/-- Witness for C8: on a concrete bound view the scalar read never
reports `OutOfRange`. -/
theorem C8_policy_witness :
    (Varstruct.mk [4, 8] (PtrType.mut 100)).scalar_get (fun _ => 0) 4 0
      ≠ Except.error VarstructError.OutOfRange :=
  (C8_policy (Varstruct.mk [4, 8] (PtrType.mut 100)) 100 (fun _ => 0) 4 0 5
    [1, 1, 1, 1] rfl).1

/-- Claim C9: a scalar `set` (resp. an in-range bounds-checked array
`set`) on a mutable bound view modifies only the written element's byte
range `[base + start, base + start + size)` (resp. shifted by
`i * element_size`); every byte outside that range has the same value
after the write as before it, so reads of any other field or element are
unchanged. -/
theorem C9_frame (v : Varstruct) (base : Nat) (m m2 m3 : Memory)
    (elt_size index i p : Nat) (bs : List Nat)
    (hv : v.ptr_ = PtrType.mut base)
    (hset : v.scalar_set m elt_size index bs = Except.ok m2)
    (hp : p < base + v.member_offset index
        ∨ base + v.member_offset index + bs.length ≤ p)
    (haset : v.array_set m elt_size index true i bs = Except.ok m3)
    (hq : p < base + v.member_offset index + i * elt_size
        ∨ base + v.member_offset index + i * elt_size + bs.length ≤ p) :
    m2 p = m p ∧ m3 p = m p := by
  have hbp : basePtr v.ptr_ = some base := by rw [hv]; rfl
  have hmut : isMutable v.ptr_ = true := by rw [hv]; rfl
  constructor
  · have hm2 : m2 = writeBytes m (base + v.member_offset index) bs := by
      simp only [Varstruct.scalar_set, hmut, if_true, Varstruct.void_ptr, hbp,
        kBoundsCheck] at hset
      simp at hset
      exact hset.symm
    subst hm2
    exact writeBytes_outside m _ bs p (by omega)
  · rcases Nat.lt_or_ge i (v.array_size index / elt_size) with hb | hb
    · have hm3 : m3 = writeBytes m (base + v.member_offset index + i * elt_size) bs := by
        simp only [Varstruct.array_set, hmut, if_true, Varstruct.void_ptr, hbp,
          hb, if_true] at haset
        simp at haset
        exact haset.symm
      subst hm3
      exact writeBytes_outside m _ bs p (by omega)
    · exfalso
      simp only [Varstruct.array_set, hmut, if_true, Varstruct.void_ptr, hbp,
        Nat.not_lt_of_ge hb] at haset
      simp at haset

/-- Witness for C9: writing 2 bytes at field 1 of a view based at 100
(addresses 104-105) and at its array element 1 (addresses 106-107) leaves
address 300 unchanged. -/
theorem C9_frame_witness :
    writeBytes (fun _ => 0) 104 [9, 9] 300 = (fun _ => (0 : Nat)) 300 ∧
    writeBytes (fun _ => 0) 106 [9, 9] 300 = (fun _ => (0 : Nat)) 300 :=
  C9_frame (Varstruct.mk [4, 8] (PtrType.mut 100)) 100 (fun _ => 0)
    (writeBytes (fun _ => 0) 104 [9, 9])
    (writeBytes (fun _ => 0) 106 [9, 9]) 2 1 1 300 [9, 9]
    rfl rfl (by decide) rfl (by decide)

/-- Claim C6: a varstruct created without a pointer (`NoPtr` variant)
from the same schema and lengths has exactly the same `name_offset`
(`member_offset`), `name_size` (`array_size`), `size_bytes` and
`num_members` results as a pointer-bound one, and exposes no read or
write operation — every accessor that dereferences the pointer is
unavailable (`CapabilityViolation`, the `enable_if` elision). -/
theorem C6_offsets_only (fs : List FieldSlot) (ls : List Nat) (p : PtrType)
    (v v0 : Varstruct) (m : Memory) (elt_size index i : Nat) (b : Bool)
    (bs : List Nat)
    (hv : CreateInternal fs p ls = Except.ok v)
    (h0 : CreateInternal fs PtrType.noPtr ls = Except.ok v0) :
    v0.member_offset i = v.member_offset i ∧
    v0.array_size i = v.array_size i ∧
    v0.size_bytes = v.size_bytes ∧
    v0.num_members = v.num_members ∧
    v0.scalar_get m elt_size index
      = Except.error VarstructError.CapabilityViolation ∧
    v0.scalar_set m elt_size index bs
      = Except.error VarstructError.CapabilityViolation ∧
    v0.array_get m elt_size index b i
      = Except.error VarstructError.CapabilityViolation ∧
    v0.array_set m elt_size index b i bs
      = Except.error VarstructError.CapabilityViolation := by
  obtain ⟨hlen, hveq⟩ := createInternal_ok_inv hv
  obtain ⟨hlen0, h0eq⟩ := createInternal_ok_inv h0
  subst hveq
  subst h0eq
  exact ⟨rfl, rfl, rfl, rfl, rfl, rfl, rfl, rfl⟩

/-- Witness for C6 at the spec's concrete scenario: the offsets-only and
the bound view report the same total size, and the offsets-only view's
scalar read is unavailable. -/
theorem C6_offsets_only_witness :
    (Varstruct.mk [4, 10, 18] PtrType.noPtr).size_bytes
      = (Varstruct.mk [4, 10, 18] (PtrType.mut 0)).size_bytes ∧
    (Varstruct.mk [4, 10, 18] PtrType.noPtr).scalar_get (fun _ => 0) 4 0
      = Except.error VarstructError.CapabilityViolation := by
  have h := C6_offsets_only [⟨4, false⟩, ⟨2, true⟩, ⟨8, false⟩] [3]
    (PtrType.mut 0) (Varstruct.mk [4, 10, 18] (PtrType.mut 0))
    (Varstruct.mk [4, 10, 18] PtrType.noPtr) (fun _ => 0) 4 0 1 true [1]
    (by decide) (by decide)
  exact ⟨h.2.2.1, h.2.2.2.2.1⟩
